import Mathlib

/-!
Verification of the pratt top-down operator-precedence parsing engine.

The engine (class `Parser` and `ParserBuilder` in `src/index.ts`) is embedded
shallowly: JavaScript numbers that may be infinite become `ENum`, the mutable
stop-handle closures become a store of boolean flags inside an explicit state
`PState`, dynamic binding-power resolvers (zero-argument closures over mutable
external state) become functions of an invocation counter carried in the state,
and the unbounded `while` loop plus handler re-entrancy become fuel-indexed
recursion.  Handlers registered in the rule tables receive the recursive
`parse` entry point as an explicit argument, mirroring the late binding of
`this._parser.parse` in the source.
-/

/-- A JavaScript number as used for binding powers: negative infinity,
a finite integer, or positive infinity. -/
inductive ENum where
  | negInf
  | fin (n : Int)
  | posInf
deriving DecidableEq

/-- The JavaScript `<` comparison on `ENum` (no NaN involved). -/
def ENum.blt : ENum → ENum → Bool
  | ENum.negInf, ENum.negInf => false
  | ENum.negInf, ENum.fin _ => true
  | ENum.negInf, ENum.posInf => true
  | ENum.fin _, ENum.negInf => false
  | ENum.fin a, ENum.fin b => decide (a < b)
  | ENum.fin _, ENum.posInf => true
  | ENum.posInf, _ => false

/-- A token as exposed by the lexer collaborator: type key, matched text,
start position of its source span, and the end-of-input predicate
(`strpos().start` and `isEof()` in the source). -/
structure Token where
  type : String
  text : String
  startLine : Int
  startCol : Int
  isEof : Bool
deriving DecidableEq

/-- An entry of the binding-power table (`BP = number | BPResolver`).
A dynamic resolver is a zero-argument closure over mutable external state;
it is modelled as a function of the number of resolver invocations made so
far, which the engine state tracks. -/
inductive BPEntry where
  | fixed (n : ENum)
  | dyn (f : Nat → ENum)

/-- A termination condition from the `terminals` list: a number, a token-type
string, or a value of any other shape (`(number | T)[]` in the source, where
the runtime check is `typeof`). -/
inductive TermCond where
  | num (r : ENum)
  | str (s : String)
  | other
deriving DecidableEq

/-- The engine state: the remaining token stream, the token returned once the
stream is exhausted, the store of stop-handle flags (one per `createStop`
call), and the count of dynamic binding-power resolver invocations. -/
structure PState where
  toks : List Token
  eofTok : Token
  handles : List Bool
  dynCount : Nat
deriving DecidableEq

/-- `lexer.peek()`: the next token, not consumed. -/
def peekT (s : PState) : Token :=
  s.toks.headD s.eofTok

/-- The state after `lexer.next()` consumes one token. -/
def popT (s : PState) : PState :=
  { s with toks := s.toks.tail }

/-- Read a stop handle's triggered flag. -/
def getHandle (s : PState) (i : Nat) : Bool :=
  s.handles.getD i false

/-- Trigger a stop handle (`stopCalled = true`). -/
def setHandle (s : PState) (i : Nat) : PState :=
  { s with handles := s.handles.set i true }

/-- `createStop()`: allocate a fresh, untriggered stop handle and return a
reference to it. -/
def createStop (s : PState) : Nat × PState :=
  (s.handles.length, { s with handles := s.handles ++ [false] })

/-- Invoking a stop handle as a function: `stop(x)` sets the triggered flag
and returns `x` unchanged. -/
def stopCall (i : Nat) (x : α) (s : PState) : α × PState :=
  (x, setHandle s i)

/-- Parse options (`ParseOpts`): host context payload, optional stop handle,
optional termination-condition list. -/
structure Opts (C : Type) where
  ctx : Option C
  stop : Option Nat
  terminals : Option (List TermCond)
deriving DecidableEq

/-- The engine's only failure modes: the `UnexpectedToken` error thrown by
nud/led dispatch, or exhaustion of the recursion fuel (an artifact of the
embedding; the source loop is unbounded). -/
inductive PError where
  | unexpected (msg : String)
  | noFuel
deriving DecidableEq

/-- Result of a stateful, fallible engine computation. -/
abbrev PResult (α : Type) := Except PError (α × PState)

/-- The recursive `parse` entry point as handlers see it. -/
abbrev Recur (V C : Type) := Opts C → PState → PResult V

/-- `NudInfo`: what a nud handler receives. -/
structure NudInfo (C : Type) where
  token : Token
  bp : ENum
  stop : Nat
  options : Opts C

/-- `LedInfo`: a `NudInfo` plus the left value.  `left` is `Option V` because
the source passes `null` for it when an `either` handler runs in nud
position; the loop always passes an actual value. -/
structure LedInfo (V C : Type) extends NudInfo C where
  left : Option V

/-- A nud handler: it may re-enter `parse` through its first argument. -/
abbrev NudFn (V C : Type) := Recur V C → NudInfo C → PState → PResult V

/-- A led handler. -/
abbrev LedFn (V C : Type) := Recur V C → LedInfo V C → PState → PResult V

/-- First-match lookup in an association list; registration prepends, so this
has the overwrite semantics of the source's `Map`. -/
def lookupT (k : String) : List (String × β) → Option β
  | [] => none
  | (k', v) :: rest => if k = k' then some v else lookupT k rest

/-- The three rule tables owned by one parser instance
(`_nuds`, `_leds`, `_bps`). -/
structure Tables (V C : Type) where
  nuds : List (String × NudFn V C)
  leds : List (String × LedFn V C)
  bps : List (String × BPEntry)

variable {V C : Type}

/-- The argument accepted by `Parser.bp`: `null`, a token, or a raw type key
(`tokenOrType: TType | T`). -/
inductive BpArg where
  | nullArg
  | tok (t : Token)
  | typ (ty : String)

/-- Resolve a type key against the binding-power table: absent entry is
positive infinity; a fixed entry is returned as is; a dynamic resolver is
invoked afresh (bumping the invocation counter). -/
def bpResolve (tbl : Tables V C) (ty : String) (s : PState) : ENum × PState :=
  match lookupT ty tbl.bps with
  | none => (ENum.posInf, s)
  | some (BPEntry.fixed n) => (n, s)
  | some (BPEntry.dyn f) => (f s.dynCount, { s with dynCount := s.dynCount + 1 })

/-- `Parser.bp(tokenOrType)`: null and end-of-input tokens give negative
infinity; otherwise the type key is resolved against the table. -/
def Parser.bp (tbl : Tables V C) : BpArg → PState → ENum × PState
  | BpArg.nullArg, s => (ENum.negInf, s)
  | BpArg.tok t, s => if t.isEof then (ENum.negInf, s) else bpResolve tbl t.type s
  | BpArg.typ ty, s => bpResolve tbl ty s

/-- JavaScript truthiness of the value produced by the `terminals` fold:
`true`, `false`, or `undefined` (modelled as `none`). -/
def jsTruthy : Option Bool → Bool
  | some b => b
  | none => false

/-- One step of the `terminals.reduce` callback.  A falsy accumulator yields
`false`; a numeric condition yields `r < bp`; a string condition yields
`t.type != r`; any other shape falls off the end of the callback, yielding
`undefined`. -/
def termStep (bpv : ENum) (tty : String) (acc : Option Bool) (c : TermCond) : Option Bool :=
  if jsTruthy acc = false then some false
  else
    match c with
    | TermCond.num r => some (ENum.blt r bpv)
    | TermCond.str ty => some (decide (tty ≠ ty))
    | TermCond.other => none

/-- The `terminals.reduce(..., true)` fold from `check`. -/
def termFold (bpv : ENum) (tty : String) (terms : List TermCond) : Option Bool :=
  terms.foldl (termStep bpv tty) (some true)

/-- The `check` closure of `Parser.parse`: false immediately when the stop
handle is triggered; otherwise peek the next token, resolve its binding
power, and fold the termination conditions. -/
def check (tbl : Tables V C) (stopRef : Nat) (terms : List TermCond) (s : PState) :
    Bool × PState :=
  if getHandle s stopRef then (false, s)
  else
    let t := peekT s
    let r := Parser.bp tbl (BpArg.tok t) s
    (jsTruthy (termFold r.1 t.type terms), r.2)

/-- The message of the engine's `UnexpectedToken` error. -/
def fmtUnexpected (t : Token) : String :=
  "Unexpected token: " ++ t.text ++ " (at " ++ toString t.startLine ++ ":" ++
    toString t.startCol ++ ")"

/-- `Parser.nud(info)`: look up the prefix handler for the token's type;
absent handler is an error, otherwise the handler's result is returned
unchanged. -/
def Parser.nud (tbl : Tables V C) (recur : Recur V C) (info : NudInfo C) (s : PState) :
    PResult V :=
  match lookupT info.token.type tbl.nuds with
  | none => Except.error (PError.unexpected (fmtUnexpected info.token))
  | some fn => fn recur info s

/-- `Parser.led(info)`: same contract against the infix table. -/
def Parser.led (tbl : Tables V C) (recur : Recur V C) (info : LedInfo V C) (s : PState) :
    PResult V :=
  match lookupT info.token.type tbl.leds with
  | none => Except.error (PError.unexpected (fmtUnexpected info.token))
  | some fn => fn recur info s

/-- Normalization of the `terminals` list: absent or empty becomes `[0]`. -/
def normTerminals : Option (List TermCond) → List TermCond
  | none => [TermCond.num (ENum.fin 0)]
  | some [] => [TermCond.num (ENum.fin 0)]
  | some ts => ts

/-- `const stop = (opts.stop = opts.stop || createStop())`: the stop handle
used by this call, the options object after the write, and the state after
a possible allocation. -/
def parseStop (opts : Opts C) (s : PState) : Nat × Opts C × PState :=
  match opts.stop with
  | some h => (h, opts, s)
  | none =>
    let c := createStop s
    (c.1, { opts with stop := some c.1 }, c.2)

/-- The `mkinfo` closure of `Parser.parse`: bundle a token with its freshly
resolved binding power, the call's stop handle and options. -/
def mkinfo (tbl : Tables V C) (stopRef : Nat) (opts : Opts C) (t : Token) (s : PState) :
    NudInfo C × PState :=
  let r := Parser.bp tbl (BpArg.tok t) s
  ({ token := t, bp := r.1, stop := stopRef, options := opts }, r.2)

/-- The `while (check()) { ... }` loop of `Parser.parse`: while the check
passes, consume the operator token and replace `left` with the led result;
return `left` once the check fails. -/
def runLoop (tbl : Tables V C) (recur : Recur V C) (stopRef : Nat)
    (terms : List TermCond) (opts : Opts C) : Nat → V → PState → PResult V
  | 0, _, _ => Except.error PError.noFuel
  | n + 1, left, s =>
    let ck := check tbl stopRef terms s
    if ck.1 then
      let op := peekT ck.2
      let s2 := popT ck.2
      let info := mkinfo tbl stopRef opts op s2
      match Parser.led tbl recur { toNudInfo := info.1, left := some left } info.2 with
      | Except.error e => Except.error e
      | Except.ok p => runLoop tbl recur stopRef terms opts n p.1 p.2
    else Except.ok (left, ck.2)

/-- `Parser.parse(opts)`: obtain or create the stop handle (writing it back
into the options), normalize `terminals` (writing the default back when
absent or empty), consume one token for nud, then run the led loop.  The
returned pair carries the options object as the caller now sees it. -/
def Parser.parse (tbl : Tables V C) : Nat → Opts C → PState → PResult (V × Opts C)
  | 0, _, _ => Except.error PError.noFuel
  | fuel + 1, opts, s =>
    let st := parseStop opts s
    let terms := normTerminals st.2.1.terminals
    let opts2 := { st.2.1 with terminals := some terms }
    let recur : Recur V C := fun o st' =>
      Except.map (fun p => (p.1.1, p.2)) (Parser.parse tbl fuel o st')
    let t := peekT st.2.2
    let s2 := popT st.2.2
    let info := mkinfo tbl st.1 opts2 t s2
    match Parser.nud tbl recur info.1 info.2 with
    | Except.error e => Except.error e
    | Except.ok p =>
      Except.map (fun q => ((q.1, opts2), q.2))
        (runLoop tbl recur st.1 terms opts2 fuel p.1 p.2)

/-- The recursive entry point handed to handlers, projecting away the
options component (`this._parser.parse` as called from a handler). -/
def parseRecur (tbl : Tables V C) (fuel : Nat) : Recur V C :=
  fun o st => Except.map (fun p => (p.1.1, p.2)) (Parser.parse tbl fuel o st)

/-- The default argument of `parse`: a fresh `{terminals: [0]}` object. -/
def defaultOpts : Opts C :=
  { ctx := none, stop := none, terminals := some [TermCond.num (ENum.fin 0)] }

/-- The callbacks taken by `Parser.parseList`, as stateful functions over a
host state `σ`. -/
structure ListCbs (σ A : Type) where
  consumeCloser : σ → σ
  consumeSeparator : σ → σ
  isNextCloser : σ → Bool × σ
  isNextSeparator : σ → Bool × σ
  parseItem : σ → A × σ

/-- `Parser.parseList(opts)`: while the next token is not the closer, parse
an item and consume a separator exactly when one is next; after the loop,
consume the closer.  Fuel-indexed because the callbacks are arbitrary. -/
def Parser.parseList (cbs : ListCbs σ A) : Nat → σ → Option (List A × σ)
  | 0, _ => none
  | n + 1, s =>
    let c := cbs.isNextCloser s
    if c.1 then some ([], cbs.consumeCloser c.2)
    else
      let it := cbs.parseItem c.2
      let sp := cbs.isNextSeparator it.2
      let s2 := if sp.1 then cbs.consumeSeparator sp.2 else sp.2
      Option.map (fun r => (it.1 :: r.1, r.2)) (Parser.parseList cbs n s2)

/-- Counters for how many times each effectful `parseList` callback ran. -/
structure CallCounts where
  items : Nat
  seps : Nat
  closers : Nat
deriving DecidableEq

/-- Instrument a callback bundle so the state also counts every
`parseItem`, `consumeSeparator` and `consumeCloser` call. -/
def countingCbs (cbs : ListCbs σ A) : ListCbs (σ × CallCounts) A :=
  { consumeCloser := fun p =>
      (cbs.consumeCloser p.1, { p.2 with closers := p.2.closers + 1 })
    consumeSeparator := fun p =>
      (cbs.consumeSeparator p.1, { p.2 with seps := p.2.seps + 1 })
    isNextCloser := fun p =>
      ((cbs.isNextCloser p.1).1, ((cbs.isNextCloser p.1).2, p.2))
    isNextSeparator := fun p =>
      ((cbs.isNextSeparator p.1).1, ((cbs.isNextSeparator p.1).2, p.2))
    parseItem := fun p =>
      ((cbs.parseItem p.1).1, ((cbs.parseItem p.1).2, p.2)) }

/-- `ParserBuilder.bp`: register or override a binding power. -/
def ParserBuilder.bp (tbl : Tables V C) (ty : String) (b : BPEntry) : Tables V C :=
  { tbl with bps := (ty, b) :: tbl.bps }

/-- `ParserBuilder.nud`: register a prefix rule and its binding power. -/
def ParserBuilder.nud (tbl : Tables V C) (ty : String) (b : BPEntry) (fn : NudFn V C) :
    Tables V C :=
  ParserBuilder.bp { tbl with nuds := (ty, fn) :: tbl.nuds } ty b

/-- `ParserBuilder.led`: register an infix rule and its binding power. -/
def ParserBuilder.led (tbl : Tables V C) (ty : String) (b : BPEntry) (fn : LedFn V C) :
    Tables V C :=
  ParserBuilder.bp { tbl with leds := (ty, fn) :: tbl.leds } ty b

/-- The nud wrapper registered by `ParserBuilder.either`: invoke the shared
handler with `left` set to the null sentinel. -/
def eitherFn (fn : LedFn V C) : NudFn V C :=
  fun recur inf s => fn recur { toNudInfo := inf, left := none } s

/-- `ParserBuilder.either`: one handler as both nud (wrapped with a null
left) and led. -/
def ParserBuilder.either (tbl : Tables V C) (ty : String) (b : BPEntry) (fn : LedFn V C) :
    Tables V C :=
  ParserBuilder.led (ParserBuilder.nud tbl ty b (eitherFn fn)) ty b fn

/-- The led handler registered by `ParserBuilder._binary`: recurse with the
single terminal `bp` (or `bp - 1` when right-associative), sharing the stop
handle, then combine. -/
def binaryFn (op : String) (b : Int) (rightAssociative : Bool)
    (create : Option V → String → V → V) : LedFn V C :=
  fun recur inf s =>
    match recur
        { ctx := none, stop := some inf.stop,
          terminals := some [TermCond.num (ENum.fin (if rightAssociative then b - 1 else b))] }
        s with
    | Except.error e => Except.error e
    | Except.ok p => Except.ok (create inf.left op p.1, p.2)

/-- `ParserBuilder._binary`: the shared registration behind `binary` and
`rassoc`. -/
def ParserBuilder._binary (tbl : Tables V C) (op : String) (b : Int)
    (rightAssociative : Bool) (create : Option V → String → V → V) : Tables V C :=
  ParserBuilder.led tbl op (BPEntry.fixed (ENum.fin b)) (binaryFn op b rightAssociative create)

/-- `ParserBuilder.binary`: left-associative sugar. -/
def ParserBuilder.binary (tbl : Tables V C) (op : String) (b : Int)
    (create : Option V → String → V → V) : Tables V C :=
  ParserBuilder._binary tbl op b false create

/-- `ParserBuilder.rassoc`: right-associative sugar. -/
def ParserBuilder.rassoc (tbl : Tables V C) (op : String) (b : Int)
    (create : Option V → String → V → V) : Tables V C :=
  ParserBuilder._binary tbl op b true create

/-- The nud handler registered by `ParserBuilder.unary`: recurse with the
single terminal `inf.bp`, sharing the stop handle, then combine. -/
def unaryFn (op : String) (create : String → V → V) : NudFn V C :=
  fun recur inf s =>
    match recur
        { ctx := none, stop := some inf.stop, terminals := some [TermCond.num inf.bp] } s with
    | Except.error e => Except.error e
    | Except.ok p => Except.ok (create op p.1, p.2)

/-- `ParserBuilder.unary`: prefix-operator sugar. -/
def ParserBuilder.unary (tbl : Tables V C) (op : String) (b : Int)
    (create : String → V → V) : Tables V C :=
  ParserBuilder.nud tbl op (BPEntry.fixed (ENum.fin b)) (unaryFn op create)

/-- The per-condition continuation predicate as the spec words it: a numeric
condition permits continuation iff it is less than the peeked token's binding
power, a token-type condition iff the peeked type differs.  Used to compare
the source's fold against the spec's "logical AND of all conditions". -/
def condPermits (bpv : ENum) (tty : String) : TermCond → Bool
  | TermCond.num r => ENum.blt r bpv
  | TermCond.str ty => decide (tty ≠ ty)
  | TermCond.other => true

/-- Fixture: an ordinary token of type `x` at line 1, column 2. -/
def wTok : Token := { type := "x", text := "x", startLine := 1, startCol := 2, isEof := false }

/-- Fixture: the end-of-input token. -/
def wEof : Token := { type := "$EOF", text := "", startLine := 2, startCol := 0, isEof := true }

/-- Fixture: a numeric token. -/
def wNum : Token := { type := "NUM", text := "5", startLine := 1, startCol := 0, isEof := false }

/-- Fixture: a dynamic binding-power resolver returning its own invocation
index, so successive queries can be told apart. -/
def wDyn : Nat → ENum := fun k => ENum.fin (Int.ofNat k)

/-- Fixture: a table with one fixed and one dynamic binding power. -/
def wTbl : Tables Int Unit :=
  { nuds := [], leds := [],
    bps := [("fx", BPEntry.fixed (ENum.fin 7)), ("dy", BPEntry.dyn wDyn)] }

/-- Fixture: a nud handler producing the value 5. -/
def wNudFive : NudFn Int Unit := fun _ _ s => Except.ok (5, s)

/-- Fixture: a table that can parse a single `NUM` token. -/
def wTbl3 : Tables Int Unit :=
  { nuds := [("NUM", wNudFive)], leds := [],
    bps := [("NUM", BPEntry.fixed (ENum.fin 100))] }

/-- Fixture: empty stream, one untriggered handle. -/
def wState : PState := { toks := [], eofTok := wEof, handles := [false], dynCount := 0 }

/-- Fixture: one `x` token pending, one untriggered handle. -/
def wCState : PState := { toks := [wTok], eofTok := wEof, handles := [false], dynCount := 0 }

/-- Fixture: one `x` token pending, one triggered handle. -/
def wTrigState : PState := { toks := [wTok], eofTok := wEof, handles := [true], dynCount := 0 }

/-- Fixture: one `NUM` token pending, no handles. -/
def wNState : PState := { toks := [wNum], eofTok := wEof, handles := [], dynCount := 0 }

/-- Fixture: one `NUM` token pending, one triggered handle. -/
def wNTrig : PState := { toks := [wNum], eofTok := wEof, handles := [true], dynCount := 0 }

/-- Fixture: a recursive entry point that always fails (never reached in the
witness scenarios). -/
def wRecur : Recur Int Unit := fun _ _ => Except.error PError.noFuel

/-- Fixture: options with nothing supplied. -/
def wOptsNone : Opts Unit := { ctx := none, stop := none, terminals := none }

/-- Fixture: options naming handle 0 and the default terminal. -/
def wOpts0 : Opts Unit := { ctx := none, stop := some 0, terminals := some [TermCond.num (ENum.fin 0)] }

/-- Fixture: nud info for the `x` token. -/
def wInfoX : NudInfo Unit := { token := wTok, bp := ENum.posInf, stop := 0, options := wOptsNone }

/-- Fixture: led info for the `x` token. -/
def wLInfoX : LedInfo Int Unit := { toNudInfo := wInfoX, left := some 1 }

/-- Fixture: nud info for the `NUM` token. -/
def wInfoNum : NudInfo Unit := { token := wNum, bp := ENum.fin 100, stop := 0, options := wOptsNone }

/-- Fixture: `parseList` callbacks over a list of numbers, where 0 is the
closer and 9 the separator. -/
def wCbs : ListCbs (List Nat) Nat :=
  { consumeCloser := List.tail
    consumeSeparator := List.tail
    isNextCloser := fun l => (decide (l.headD 1 = 0), l)
    isNextSeparator := fun l => (decide (l.headD 1 = 9), l)
    parseItem := fun l => (l.headD 7, l.tail) }

/-- Fixture: a plus token. -/
def wPlusTok : Token := { type := "+", text := "+", startLine := 1, startCol := 4, isEof := false }

/-- Fixture: a binary combiner. -/
def wCreate : Option Int → String → Int → Int := fun l _ r => l.getD 0 + r

/-- Fixture: a unary combiner. -/
def wCreateU : String → Int → Int := fun _ r => 0 - r

/-- Fixture: nud info whose queried binding power is 30. -/
def wInfoU : NudInfo Unit := { token := wPlusTok, bp := ENum.fin 30, stop := 0, options := wOptsNone }

/-- Fixture: the state after the `NUM` token is consumed with the handle
still triggered. -/
def wNTrigAfter : PState := { toks := [], eofTok := wEof, handles := [true], dynCount := 0 }

/-- Fixture: zeroed call counters. -/
def wCnt0 : CallCounts := { items := 0, seps := 0, closers := 0 }

theorem bpResolve_frame (tbl : Tables V C) (ty : String) (s : PState) :
    (bpResolve tbl ty s).2.toks = s.toks ∧ (bpResolve tbl ty s).2.handles = s.handles ∧
      (bpResolve tbl ty s).2.eofTok = s.eofTok := by
  rcases h : lookupT ty tbl.bps with _ | b
  · simp [bpResolve, h]
  · cases b <;> simp [bpResolve, h]

theorem bp_frame (tbl : Tables V C) (a : BpArg) (s : PState) :
    (Parser.bp tbl a s).2.toks = s.toks ∧ (Parser.bp tbl a s).2.handles = s.handles ∧
      (Parser.bp tbl a s).2.eofTok = s.eofTok := by
  cases a with
  | nullArg => exact ⟨rfl, rfl, rfl⟩
  | tok t =>
    by_cases h : t.isEof = true
    · simp [Parser.bp, h]
    · simp only [Parser.bp, h, if_false, Bool.false_eq_true]
      exact bpResolve_frame tbl t.type s
  | typ ty => exact bpResolve_frame tbl ty s

theorem check_frame (tbl : Tables V C) (i : Nat) (ts : List TermCond) (s : PState) :
    (check tbl i ts s).2.toks = s.toks ∧ (check tbl i ts s).2.handles = s.handles ∧
      (check tbl i ts s).2.eofTok = s.eofTok := by
  by_cases h : getHandle s i = true
  · simp [check, h]
  · simp only [check, h, if_false, Bool.false_eq_true]
    exact bp_frame tbl (BpArg.tok (peekT s)) s

theorem check_peek (tbl : Tables V C) (i : Nat) (ts : List TermCond) (s : PState) :
    peekT (check tbl i ts s).2 = peekT s := by
  have h := check_frame tbl i ts s
  simp [peekT, h.1, h.2.2]

theorem termStep_false (bpv : ENum) (tty : String) (c : TermCond) (acc : Option Bool)
    (h : jsTruthy acc = false) : termStep bpv tty acc c = some false := by
  simp [termStep, h]

theorem foldl_termStep_false (bpv : ENum) (tty : String) (l : List TermCond) :
    ∀ acc, jsTruthy acc = false →
      jsTruthy (List.foldl (termStep bpv tty) acc l) = false := by
  induction l with
  | nil => intro acc h; simpa using h
  | cons c rest ih =>
    intro acc h
    rw [List.foldl_cons, termStep_false bpv tty c acc h]
    exact ih (some false) rfl

theorem foldl_termStep_some_false (bpv : ENum) (tty : String) (l : List TermCond) :
    List.foldl (termStep bpv tty) (some false) l = some false := by
  induction l with
  | nil => rfl
  | cons c rest ih =>
    rw [List.foldl_cons, termStep_false bpv tty c (some false) rfl]
    exact ih

theorem termFold_wf (bpv : ENum) (tty : String) (l : List TermCond)
    (hWf : TermCond.other ∉ l) :
    ∀ b, List.foldl (termStep bpv tty) (some b) l =
      some (b && l.all (condPermits bpv tty)) := by
  induction l with
  | nil => intro b; simp
  | cons c rest ih =>
    intro b
    have hc : c ≠ TermCond.other := fun he => hWf (he ▸ List.mem_cons_self c rest)
    have hr : TermCond.other ∉ rest := fun hm => hWf (List.mem_cons_of_mem c hm)
    cases b with
    | false =>
      rw [List.foldl_cons, termStep_false bpv tty c (some false) rfl,
        foldl_termStep_some_false]
      simp
    | true =>
      cases c with
      | num r =>
        rw [List.foldl_cons]
        have : termStep bpv tty (some true) (TermCond.num r) = some (condPermits bpv tty (TermCond.num r)) := rfl
        rw [this, ih hr]
        simp [List.all_cons]
      | str ty =>
        rw [List.foldl_cons]
        have : termStep bpv tty (some true) (TermCond.str ty) = some (condPermits bpv tty (TermCond.str ty)) := rfl
        rw [this, ih hr]
        simp [List.all_cons]
      | other => exact absurd rfl hc

theorem termFold_eq_all (bpv : ENum) (tty : String) (terms : List TermCond)
    (hWf : TermCond.other ∉ terms) :
    termFold bpv tty terms = some (terms.all (condPermits bpv tty)) := by
  simpa [termFold] using termFold_wf bpv tty terms hWf true

theorem runLoop_stopped (tbl : Tables V C) (recur : Recur V C) (i : Nat)
    (terms : List TermCond) (opts : Opts C) (n : Nat) (left : V) (s : PState)
    (h : getHandle s i = true) :
    runLoop tbl recur i terms opts (n + 1) left s = Except.ok (left, s) := by
  simp [runLoop, check, h]

theorem foldl_termStep_other (bpv : ENum) (tty : String) (l : List TermCond)
    (h : TermCond.other ∈ l) :
    ∀ acc, jsTruthy (List.foldl (termStep bpv tty) acc l) = false := by
  induction l with
  | nil => simp at h
  | cons c rest ih =>
    intro acc
    rcases List.mem_cons.mp h with he | hm
    · rw [List.foldl_cons]
      apply foldl_termStep_false
      by_cases hx : jsTruthy acc = false
      · rw [termStep_false bpv tty c acc hx]
        rfl
      · simp only [termStep, hx, if_false, ← he]
        rfl
    · rw [List.foldl_cons]
      exact ih hm _

/-- C2: `Parser.bp` returns negative infinity for the null key or a token
whose end-of-input predicate holds; otherwise it resolves the type's table
entry — a fixed value as registered, or a dynamic resolver re-invoked afresh
on this very query (never cached, so the next query sees the next invocation
index) — and positive infinity when no entry exists. -/
theorem bp_resolution_spec (tbl : Tables V C) (t : Token) (ty : String) (nv : ENum)
    (f : Nat → ENum) (s : PState) :
    Parser.bp (V := V) (C := C) tbl BpArg.nullArg s = (ENum.negInf, s)
    ∧ (t.isEof = true → Parser.bp (V := V) (C := C) tbl (BpArg.tok t) s = (ENum.negInf, s))
    ∧ (t.isEof = false →
        Parser.bp (V := V) (C := C) tbl (BpArg.tok t) s = bpResolve tbl t.type s)
    ∧ (lookupT ty tbl.bps = some (BPEntry.fixed nv) →
        Parser.bp (V := V) (C := C) tbl (BpArg.typ ty) s = (nv, s))
    ∧ (lookupT ty tbl.bps = none →
        Parser.bp (V := V) (C := C) tbl (BpArg.typ ty) s = (ENum.posInf, s))
    ∧ (lookupT ty tbl.bps = some (BPEntry.dyn f) →
        Parser.bp (V := V) (C := C) tbl (BpArg.typ ty) s =
          (f s.dynCount, { s with dynCount := s.dynCount + 1 })
        ∧ (Parser.bp (V := V) (C := C) tbl (BpArg.typ ty)
            { s with dynCount := s.dynCount + 1 }).1 = f (s.dynCount + 1)) := by
  refine ⟨rfl, fun h => by simp [Parser.bp, h], fun h => by simp [Parser.bp, h],
    fun h => by simp [Parser.bp, bpResolve, h],
    fun h => by simp [Parser.bp, bpResolve, h],
    fun h => ⟨by simp [Parser.bp, bpResolve, h], by simp [Parser.bp, bpResolve, h]⟩⟩

/-- Witness for `bp_resolution_spec`: a concrete table with a fixed entry,
a dynamic entry whose two successive queries return different values, a
missing entry, and the end-of-input token. -/
theorem bp_resolution_spec_witness :
    Parser.bp (V := Int) (C := Unit) wTbl (BpArg.typ "fx") wState = (ENum.fin 7, wState)
    ∧ Parser.bp (V := Int) (C := Unit) wTbl (BpArg.typ "dy") wState =
        (ENum.fin 0, { wState with dynCount := 1 })
    ∧ (Parser.bp (V := Int) (C := Unit) wTbl (BpArg.typ "dy")
        { wState with dynCount := 1 }).1 = ENum.fin 1
    ∧ Parser.bp (V := Int) (C := Unit) wTbl (BpArg.typ "zz") wState = (ENum.posInf, wState)
    ∧ Parser.bp (V := Int) (C := Unit) wTbl (BpArg.tok wEof) wState = (ENum.negInf, wState) := by
  refine ⟨(bp_resolution_spec wTbl wEof "fx" (ENum.fin 7) wDyn wState).2.2.2.1 rfl, ?_, ?_,
    (bp_resolution_spec wTbl wEof "zz" (ENum.fin 7) wDyn wState).2.2.2.2.1 rfl,
    (bp_resolution_spec wTbl wEof "fx" (ENum.fin 7) wDyn wState).2.1 rfl⟩
  · exact ((bp_resolution_spec wTbl wEof "dy" (ENum.fin 7) wDyn wState).2.2.2.2.2 rfl).1
  · exact ((bp_resolution_spec wTbl wEof "dy" (ENum.fin 7) wDyn wState).2.2.2.2.2 rfl).2

/-- C4: nud/led dispatch raises an error exactly when no handler is
registered for the encountered token's type; the error carries the message
"Unexpected token: text (at line:column)" built from the offending token;
a registered handler's result is returned unchanged. -/
theorem dispatch_unexpected_token_spec (tbl : Tables V C) (recur : Recur V C)
    (info : NudInfo C) (linfo : LedInfo V C) (s : PState) :
    (lookupT info.token.type tbl.nuds = none →
      Parser.nud tbl recur info s =
        Except.error (PError.unexpected
          ("Unexpected token: " ++ info.token.text ++ " (at " ++
            toString info.token.startLine ++ ":" ++ toString info.token.startCol ++ ")")))
    ∧ (∀ fn, lookupT info.token.type tbl.nuds = some fn →
        Parser.nud tbl recur info s = fn recur info s)
    ∧ (lookupT linfo.token.type tbl.leds = none →
        Parser.led tbl recur linfo s =
          Except.error (PError.unexpected
            ("Unexpected token: " ++ linfo.token.text ++ " (at " ++
              toString linfo.token.startLine ++ ":" ++ toString linfo.token.startCol ++ ")")))
    ∧ (∀ fn, lookupT linfo.token.type tbl.leds = some fn →
        Parser.led tbl recur linfo s = fn recur linfo s) := by
  refine ⟨fun h => by simp [Parser.nud, h, fmtUnexpected],
    fun fn h => by simp [Parser.nud, h],
    fun h => by simp [Parser.led, h, fmtUnexpected],
    fun fn h => by simp [Parser.led, h]⟩

/-- Witness for `dispatch_unexpected_token_spec`: the empty table rejects an
`x` token at line 1 column 2 with the exact message, and a registered
handler's value passes through. -/
theorem dispatch_unexpected_token_spec_witness :
    Parser.nud wTbl wRecur wInfoX wState =
      Except.error (PError.unexpected "Unexpected token: x (at 1:2)")
    ∧ Parser.nud wTbl3 wRecur wInfoNum wState = Except.ok (5, wState) := by
  constructor
  · exact (dispatch_unexpected_token_spec wTbl wRecur wInfoX wLInfoX wState).1 rfl
  · exact ((dispatch_unexpected_token_spec wTbl3 wRecur wInfoNum wLInfoX wState).2.1
      wNudFive rfl).trans rfl

/-- C6: `either` registers the handler as both nud and led for the type; in
nud position the handler receives the null sentinel in place of the left
operand, and that sentinel differs from every legitimate parsed value. -/
theorem either_registration_spec (tbl : Tables V C) (ty : String) (b : BPEntry)
    (fn : LedFn V C) (recur : Recur V C) (inf : NudInfo C) (s : PState) :
    lookupT ty (ParserBuilder.either tbl ty b fn).nuds = some (eitherFn fn)
    ∧ lookupT ty (ParserBuilder.either tbl ty b fn).leds = some fn
    ∧ eitherFn fn recur inf s = fn recur { toNudInfo := inf, left := none } s
    ∧ ∀ v : V, (none : Option V) ≠ some v := by
  refine ⟨?_, ?_, rfl, fun v => by simp⟩
  · simp [ParserBuilder.either, ParserBuilder.led, ParserBuilder.nud, ParserBuilder.bp,
      lookupT]
  · simp [ParserBuilder.either, ParserBuilder.led, ParserBuilder.nud, ParserBuilder.bp,
      lookupT]

/-- C7: a parse call whose terminals list is absent or empty behaves exactly
as if the single numeric condition 0 had been supplied; normalization, not
an error. -/
theorem terminals_default_spec (tbl : Tables V C) (opts : Opts C)
    (h : opts.terminals = none ∨ opts.terminals = some []) (fuel : Nat) (s : PState) :
    Parser.parse (V := V) tbl fuel opts s =
      Parser.parse (V := V) tbl fuel
        { opts with terminals := some [TermCond.num (ENum.fin 0)] } s := by
  cases fuel with
  | zero => rfl
  | succ n =>
    obtain ⟨c, st, tm⟩ := opts
    rcases h with h | h <;> simp only [Opts.mk.injEq] at h <;> subst h <;>
      cases st <;> simp [Parser.parse, parseStop, normTerminals]

/-- Witness for `terminals_default_spec`: an absent terminals list at a
concrete table and state. -/
theorem terminals_default_spec_witness :
    Parser.parse (V := Int) wTbl3 1 wOptsNone wNState =
      Parser.parse (V := Int) wTbl3 1
        { wOptsNone with terminals := some [TermCond.num (ENum.fin 0)] } wNState :=
  terminals_default_spec wTbl3 wOptsNone (Or.inl rfl) 1 wNState

/-- Counterexample to C9: the reduce callback maps an unrecognized condition
shape to undefined, not to the prior accumulator, and its mere presence
flips a passing check to a failing one (same table, same state, stop handle
untriggered, peeked binding power positive infinity). -/
theorem unrecognized_terminal_counterexample :
    termStep ENum.posInf "x" (some true) TermCond.other = none
    ∧ (check wTbl 0 [TermCond.num (ENum.fin 0)] wCState).1 = true
    ∧ (check wTbl 0 [TermCond.num (ENum.fin 0), TermCond.other] wCState).1 = false :=
  ⟨rfl, rfl, rfl⟩

/-- C9 amended: in the terminals fold, a condition that is neither a number
nor a token-type string makes the callback return undefined; undefined is
falsy, so the presence of such a condition always makes the loop check fail
(the loop stops), rather than propagating the prior accumulator. -/
theorem unrecognized_terminal_halts (tbl : Tables V C) (stopRef : Nat)
    (terms : List TermCond) (s : PState) (h : TermCond.other ∈ terms) :
    (check tbl stopRef terms s).1 = false := by
  by_cases hs : getHandle s stopRef = true
  · simp [check, hs]
  · have hg : getHandle s stopRef = false := by simpa using hs
    simp only [check, hg, Bool.false_eq_true, if_false]
    exact foldl_termStep_other _ _ terms h (some true)

/-- Witness for `unrecognized_terminal_halts` at a concrete unrecognized
condition. -/
theorem unrecognized_terminal_halts_witness :
    (check wTbl 0 [TermCond.other] wCState).1 = false :=
  unrecognized_terminal_halts wTbl 0 [TermCond.other] wCState (by decide)

/-- C1: for well-shaped terminals, the loop check passes exactly when the
stop handle is untriggered and every condition permits continuation against
the peeked (unconsumed) token — numeric conditions by `r < bp(peek)`,
token-type conditions by type difference, combined by logical AND; when the
check fails the loop returns the current left without consuming a token, and
when it passes the loop consumes exactly the operator token and replaces
left with the led result. -/
theorem parse_loop_check_spec (tbl : Tables V C) (recur : Recur V C) (stopRef : Nat)
    (terms : List TermCond) (opts : Opts C) (n : Nat) (left : V) (s : PState)
    (hWf : TermCond.other ∉ terms) :
    ((check tbl stopRef terms s).1 = true ↔
      (getHandle s stopRef = false ∧ ∀ c ∈ terms,
        condPermits (Parser.bp (V := V) (C := C) tbl (BpArg.tok (peekT s)) s).1
          (peekT s).type c = true))
    ∧ ((check tbl stopRef terms s).1 = false →
        runLoop tbl recur stopRef terms opts (n + 1) left s =
          Except.ok (left, (check tbl stopRef terms s).2)
        ∧ (check tbl stopRef terms s).2.toks = s.toks)
    ∧ ((check tbl stopRef terms s).1 = true →
        (popT (check tbl stopRef terms s).2).toks = s.toks.tail
        ∧ (∀ e,
            Parser.led tbl recur
              { toNudInfo :=
                  (mkinfo tbl stopRef opts (peekT s) (popT (check tbl stopRef terms s).2)).1,
                left := some left }
              (mkinfo tbl stopRef opts (peekT s) (popT (check tbl stopRef terms s).2)).2 =
              Except.error e →
            runLoop tbl recur stopRef terms opts (n + 1) left s = Except.error e)
        ∧ (∀ l' s2,
            Parser.led tbl recur
              { toNudInfo :=
                  (mkinfo tbl stopRef opts (peekT s) (popT (check tbl stopRef terms s).2)).1,
                left := some left }
              (mkinfo tbl stopRef opts (peekT s) (popT (check tbl stopRef terms s).2)).2 =
              Except.ok (l', s2) →
            runLoop tbl recur stopRef terms opts (n + 1) left s =
              runLoop tbl recur stopRef terms opts n l' s2)) := by
  refine ⟨?_, ?_, ?_⟩
  · by_cases hs : getHandle s stopRef = true
    · simp [check, hs]
    · have hg : getHandle s stopRef = false := by simpa using hs
      simp only [check, hg, Bool.false_eq_true, if_false]
      rw [termFold_eq_all _ _ _ hWf]
      simp [jsTruthy, List.all_eq_true]
  · intro h
    refine ⟨?_, (check_frame tbl stopRef terms s).1⟩
    simp only [runLoop]
    rw [h]
    simp
  · intro h
    refine ⟨by simp [popT, (check_frame tbl stopRef terms s).1], ?_, ?_⟩
    · intro e he
      simp only [runLoop]
      rw [check_peek, he]
      simp [h]
    · intro l' s2 he
      simp only [runLoop]
      rw [check_peek, he]
      simp [h]

/-- Witness for `parse_loop_check_spec`: with a triggered stop handle the
check fails and the loop returns the current left with the state intact. -/
theorem parse_loop_check_spec_witness :
    runLoop wTbl wRecur 0 [TermCond.num (ENum.fin 0)] wOptsNone 1 (5 : Int) wTrigState =
      Except.ok (5, (check wTbl 0 [TermCond.num (ENum.fin 0)] wTrigState).2) :=
  ((parse_loop_check_spec wTbl wRecur 0 [TermCond.num (ENum.fin 0)] wOptsNone 0 5
    wTrigState (by decide)).2.1 rfl).1

theorem getD_set_self (l : List Bool) (i : Nat) (h : i < l.length) :
    (l.set i true).getD i false = true := by
  induction l generalizing i with
  | nil => simp at h
  | cons a t ih =>
    cases i with
    | zero => rfl
    | succ j =>
      simp only [List.set_cons_succ, List.getD_cons_succ]
      exact ih j (by simpa using h)

theorem getD_set_ne (l : List Bool) (i j : Nat) (h : j ≠ i) :
    (l.set i true).getD j false = l.getD j false := by
  induction l generalizing i j with
  | nil => rfl
  | cons a t ih =>
    cases i with
    | zero =>
      cases j with
      | zero => exact absurd rfl h
      | succ k => simp [List.getD_cons_succ]
    | succ i2 =>
      cases j with
      | zero => simp [List.getD_cons_zero]
      | succ k =>
        simp only [List.set_cons_succ, List.getD_cons_succ]
        exact ih i2 k (fun he => h (by rw [he]))

theorem getD_append_left (l l2 : List Bool) (j : Nat) (h : j < l.length) :
    (l ++ l2).getD j false = l.getD j false := by
  induction l generalizing j with
  | nil => simp at h
  | cons a t ih =>
    cases j with
    | zero => rfl
    | succ k =>
      simp only [List.cons_append, List.getD_cons_succ]
      exact ih k (by simpa using h)

theorem getD_append_self (l : List Bool) (b : Bool) :
    (l ++ [b]).getD l.length false = b := by
  induction l with
  | nil => rfl
  | cons a t ih => simp [List.getD_cons_succ, ih]

theorem parse_succ (tbl : Tables V C) (fuel : Nat) (opts : Opts C) (s : PState) :
    Parser.parse (V := V) tbl (fuel + 1) opts s =
      match Parser.nud tbl (parseRecur tbl fuel)
          (mkinfo tbl (parseStop opts s).1
            { (parseStop opts s).2.1 with
              terminals := some (normTerminals (parseStop opts s).2.1.terminals) }
            (peekT (parseStop opts s).2.2) (popT (parseStop opts s).2.2)).1
          (mkinfo tbl (parseStop opts s).1
            { (parseStop opts s).2.1 with
              terminals := some (normTerminals (parseStop opts s).2.1.terminals) }
            (peekT (parseStop opts s).2.2) (popT (parseStop opts s).2.2)).2 with
      | Except.error e => Except.error e
      | Except.ok p =>
        Except.map
          (fun q => ((q.1,
            { (parseStop opts s).2.1 with
              terminals := some (normTerminals (parseStop opts s).2.1.terminals) }), q.2))
          (runLoop tbl (parseRecur tbl fuel) (parseStop opts s).1
            (normTerminals (parseStop opts s).2.1.terminals)
            { (parseStop opts s).2.1 with
              terminals := some (normTerminals (parseStop opts s).2.1.terminals) }
            fuel p.1 p.2) := rfl

/-- Counterexample to C3 as stated: the stop handle records nothing about
the value passed to `stop` — triggering it with 1 and with 2 leaves
identical handle state, so the value is not recorded on the handle (it is
only returned to the caller). -/
theorem stop_value_not_recorded :
    (stopCall 0 (1 : Int) wCState).2 = (stopCall 0 (2 : Int) wCState).2
    ∧ (1 : Int) ≠ 2 :=
  ⟨rfl, by decide⟩

/-- C3 amended: `stop(v)` marks the handle triggered and returns `v`
unchanged to its caller (the handle stores only the triggered flag); any
loop running on a triggered handle — the enclosing one or a nested one that
was explicitly given the same handle — returns its current left at the next
condition check without consuming a token; triggering is idempotent; and a
parse call given no handle allocates a fresh one whose triggering leaves
every existing handle unchanged. -/
theorem stop_semantics_spec (tbl : Tables V C) (recur : Recur V C) (i h0 : Nat) (x : V)
    (terms : List TermCond) (opts : Opts C) (n fuel : Nat) (left : V) (s : PState) :
    (stopCall i x s = (x, setHandle s i)
      ∧ (i < s.handles.length → getHandle (setHandle s i) i = true))
    ∧ (getHandle s i = true →
        runLoop tbl recur i terms opts (n + 1) left s = Except.ok (left, s))
    ∧ setHandle (setHandle s i) i = setHandle s i
    ∧ (opts.stop = some h0 → parseStop opts s = (h0, opts, s))
    ∧ (opts.stop = none →
        parseStop opts s =
          (s.handles.length, { opts with stop := some s.handles.length },
            { s with handles := s.handles ++ [false] })
        ∧ getHandle { s with handles := s.handles ++ [false] } s.handles.length = false
        ∧ ∀ j, j < s.handles.length →
            getHandle (setHandle { s with handles := s.handles ++ [false] }
              s.handles.length) j = getHandle s j)
    ∧ (opts.stop = some h0 → getHandle s h0 = true →
        ∀ v s2,
          Parser.nud tbl (parseRecur tbl (fuel + 1))
            (mkinfo tbl h0 { opts with terminals := some (normTerminals opts.terminals) }
              (peekT s) (popT s)).1
            (mkinfo tbl h0 { opts with terminals := some (normTerminals opts.terminals) }
              (peekT s) (popT s)).2 = Except.ok (v, s2) →
          getHandle s2 h0 = true →
          Parser.parse (V := V) tbl (fuel + 2) opts s =
            Except.ok ((v, { opts with terminals := some (normTerminals opts.terminals) }),
              s2)) := by
  refine ⟨⟨rfl, fun h => getD_set_self s.handles i h⟩, ?_, ?_, fun h => by simp [parseStop, h],
    ?_, ?_⟩
  · intro h
    exact runLoop_stopped tbl recur i terms opts n left s h
  · simp [setHandle, List.set_set]
  · intro h
    refine ⟨by simp [parseStop, h, createStop], getD_append_self s.handles false, ?_⟩
    intro j hj
    show (((s.handles ++ [false]).set s.handles.length true).getD j false) = _
    rw [getD_set_ne _ _ _ (Nat.ne_of_lt hj), getD_append_left _ _ _ hj]
    rfl
  · intro hstop htrig v s2 hnud hs2
    rw [parse_succ]
    simp only [parseStop, hstop] at hnud ⊢
    rw [hnud]
    have hr := runLoop_stopped tbl (parseRecur tbl (fuel + 1)) h0
      (normTerminals opts.terminals)
      { ctx := opts.ctx, stop := some h0, terminals := some (normTerminals opts.terminals) }
      fuel v s2 hs2
    simp [hr, Except.map]

/-- Witness for `stop_semantics_spec`: concrete triggering, a loop halting on
a triggered handle, handle sharing via the options, fresh allocation without
leak, and a full parse over a shared triggered handle that consumes nothing
past the nud token. -/
theorem stop_semantics_spec_witness :
    stopCall 0 (7 : Int) wCState = (7, setHandle wCState 0)
    ∧ getHandle (setHandle wCState 0) 0 = true
    ∧ runLoop wTbl wRecur 0 [TermCond.num (ENum.fin 0)] wOptsNone 1 (5 : Int) wTrigState =
        Except.ok (5, wTrigState)
    ∧ parseStop wOpts0 wCState = (0, wOpts0, wCState)
    ∧ getHandle { wCState with handles := wCState.handles ++ [false] } 1 = false
    ∧ getHandle (setHandle { wCState with handles := wCState.handles ++ [false] } 1) 0 =
        getHandle wCState 0
    ∧ Parser.parse (V := Int) wTbl3 2 wOpts0 wNTrig = Except.ok ((5, wOpts0), wNTrigAfter) := by
  refine ⟨(stop_semantics_spec wTbl wRecur 0 0 (7 : Int) [] wOptsNone 0 0 (5 : Int)
      wCState).1.1,
    (stop_semantics_spec wTbl wRecur 0 0 (7 : Int) [] wOptsNone 0 0 (5 : Int)
      wCState).1.2 (by decide),
    (stop_semantics_spec wTbl wRecur 0 0 (7 : Int) [TermCond.num (ENum.fin 0)] wOptsNone
      0 0 (5 : Int) wTrigState).2.1 rfl,
    (stop_semantics_spec wTbl wRecur 0 0 (7 : Int) [] wOpts0 0 0 (5 : Int)
      wCState).2.2.2.1 rfl,
    ((stop_semantics_spec wTbl wRecur 0 0 (7 : Int) [] wOptsNone 0 0 (5 : Int)
      wCState).2.2.2.2.1 rfl).2.1,
    ((stop_semantics_spec wTbl wRecur 0 0 (7 : Int) [] wOptsNone 0 0 (5 : Int)
      wCState).2.2.2.2.1 rfl).2.2 0 (by decide),
    (stop_semantics_spec wTbl3 wRecur 0 0 (7 : Int) [] wOpts0 0 0 (5 : Int)
      wNTrig).2.2.2.2.2 rfl rfl 5 wNTrigAfter rfl rfl⟩

/-- C5: `binary` registers a led handler whose recursive parse call uses the
single terminal `bp` (left-associative), `rassoc` one using `bp − 1`
(right-associative), and `unary` a nud handler recursing with the single
terminal equal to its queried binding power — fixed to `bp` by the very
registration — and then applying the combiner to the operator and the parsed
right value; all three share the caller's stop handle in the recursion. -/
theorem builder_sugar_spec (tbl : Tables V C) (op : String) (b : Int)
    (create : Option V → String → V → V) (createU : String → V → V)
    (recur : Recur V C) (inf : LedInfo V C) (infN : NudInfo C) (t : Token) (s : PState) :
    lookupT op (ParserBuilder.binary tbl op b create).leds = some (binaryFn op b false create)
    ∧ lookupT op (ParserBuilder.rassoc tbl op b create).leds = some (binaryFn op b true create)
    ∧ binaryFn (C := C) op b false create recur inf s =
        (match recur
            { ctx := none, stop := some inf.stop,
              terminals := some [TermCond.num (ENum.fin b)] } s with
         | Except.error e => Except.error e
         | Except.ok p => Except.ok (create inf.left op p.1, p.2))
    ∧ binaryFn (C := C) op b true create recur inf s =
        (match recur
            { ctx := none, stop := some inf.stop,
              terminals := some [TermCond.num (ENum.fin (b - 1))] } s with
         | Except.error e => Except.error e
         | Except.ok p => Except.ok (create inf.left op p.1, p.2))
    ∧ lookupT op (ParserBuilder.unary tbl op b createU).nuds = some (unaryFn op createU)
    ∧ (infN.bp = ENum.fin b →
        unaryFn (C := C) op createU recur infN s =
          (match recur
              { ctx := none, stop := some infN.stop,
                terminals := some [TermCond.num (ENum.fin b)] } s with
           | Except.error e => Except.error e
           | Except.ok p => Except.ok (createU op p.1, p.2)))
    ∧ (t.isEof = false → t.type = op →
        Parser.bp (ParserBuilder.unary tbl op b createU) (BpArg.tok t) s =
          (ENum.fin b, s)) := by
  refine ⟨?_, ?_, rfl, rfl, ?_, ?_, ?_⟩
  · simp [ParserBuilder.binary, ParserBuilder._binary, ParserBuilder.led, ParserBuilder.bp,
      lookupT]
  · simp [ParserBuilder.rassoc, ParserBuilder._binary, ParserBuilder.led, ParserBuilder.bp,
      lookupT]
  · simp [ParserBuilder.unary, ParserBuilder.nud, ParserBuilder.bp, lookupT]
  · intro h
    simp only [unaryFn, h]
  · intro h1 h2
    simp [Parser.bp, h1, h2, ParserBuilder.unary, ParserBuilder.nud, ParserBuilder.bp,
      bpResolve, lookupT]

/-- Witness for `builder_sugar_spec`: the `+` operator at binding power 30,
with the queried-binding-power hypothesis and an actual `+` token. -/
theorem builder_sugar_spec_witness :
    lookupT "+" (ParserBuilder.binary (V := Int) (C := Unit) wTbl "+" 30 wCreate).leds =
      some (binaryFn "+" 30 false wCreate)
    ∧ unaryFn (C := Unit) "+" wCreateU wRecur wInfoU wState = Except.error PError.noFuel
    ∧ Parser.bp (V := Int) (C := Unit) (ParserBuilder.unary wTbl "+" 30 wCreateU)
        (BpArg.tok wPlusTok) wState = (ENum.fin 30, wState) := by
  have h := builder_sugar_spec (V := Int) (C := Unit) wTbl "+" 30 wCreate wCreateU wRecur
    wLInfoX wInfoU wPlusTok wState
  refine ⟨h.1, ?_, h.2.2.2.2.2.2 rfl rfl⟩
  rw [h.2.2.2.2.2.1 rfl]
  rfl

/-- C8: `parseList` loops while the closer is not next, on each iteration
appending the parsed item and consuming a separator exactly when one is
next; after the loop it consumes the closer exactly once; on an immediately
closed sequence it returns the empty sequence having consumed the closer
exactly once and never having parsed an item or consumed a separator. -/
theorem parseList_spec {σ A : Type} (cbs : ListCbs σ A) (n : Nat) (s : σ)
    (cnt : CallCounts) :
    ((cbs.isNextCloser s).1 = true →
      Parser.parseList cbs (n + 1) s = some ([], cbs.consumeCloser (cbs.isNextCloser s).2)
      ∧ Parser.parseList (countingCbs cbs) (n + 1) (s, cnt) =
          some ([], (cbs.consumeCloser (cbs.isNextCloser s).2,
            { items := cnt.items, seps := cnt.seps, closers := cnt.closers + 1 })))
    ∧ ((cbs.isNextCloser s).1 = false →
        Parser.parseList cbs (n + 1) s =
          Option.map (fun r => ((cbs.parseItem (cbs.isNextCloser s).2).1 :: r.1, r.2))
            (Parser.parseList cbs n
              (if (cbs.isNextSeparator (cbs.parseItem (cbs.isNextCloser s).2).2).1 then
                cbs.consumeSeparator
                  (cbs.isNextSeparator (cbs.parseItem (cbs.isNextCloser s).2).2).2
              else (cbs.isNextSeparator (cbs.parseItem (cbs.isNextCloser s).2).2).2))) := by
  constructor
  · intro h
    constructor
    · simp [Parser.parseList, h]
    · simp [Parser.parseList, countingCbs, h]
  · intro h
    simp [Parser.parseList, h]

/-- Witness for `parseList_spec`: the closer is immediately next, so the
result is empty, the closer is consumed once, and the item/separator
callbacks never run. -/
theorem parseList_spec_witness :
    Parser.parseList wCbs 1 [0, 5] = some ([], [5])
    ∧ Parser.parseList (countingCbs wCbs) 1 ([0, 5], wCnt0) =
        some ([], ([5], { items := 0, seps := 0, closers := 1 })) := by
  have h := (parseList_spec wCbs 0 [0, 5] wCnt0).1 rfl
  exact ⟨h.1, h.2⟩

/-- C10: `parse` mutates the caller's options in place — an absent stop
handle is replaced by the freshly created one, an absent or empty terminals
list by the default `[0]` — and this is what the caller observes after a
successful return, with the context field untouched. -/
theorem parse_opts_mutation_spec (tbl : Tables V C) (fuel : Nat) (opts opts2 : Opts C)
    (s s2 : PState) (v : V)
    (h : Parser.parse (V := V) tbl (fuel + 1) opts s = Except.ok ((v, opts2), s2)) :
    opts2.ctx = opts.ctx
    ∧ opts2.stop = some (match opts.stop with
        | some h0 => h0
        | none => s.handles.length)
    ∧ opts2.terminals = some (match opts.terminals with
        | none => [TermCond.num (ENum.fin 0)]
        | some [] => [TermCond.num (ENum.fin 0)]
        | some ts => ts) := by
  rw [parse_succ] at h
  split at h
  · simp at h
  · simp only [Except.map] at h
    split at h
    · simp at h
    · simp only [Except.ok.injEq, Prod.mk.injEq] at h
      obtain ⟨⟨hv, hopts⟩, hs2⟩ := h
      rw [← hopts]
      rcases hst : opts.stop with _ | h0 <;> simp only [parseStop, hst, createStop] <;>
        refine ⟨by simp, by simp, ?_⟩ <;>
        rcases htm : opts.terminals with _ | ts <;> simp [normTerminals]

/-- Witness for `parse_opts_mutation_spec`: a successful one-token parse with
nothing supplied writes back handle 0 and terminals `[0]`. -/
theorem parse_opts_mutation_spec_witness :
    wOpts0.ctx = wOptsNone.ctx
    ∧ wOpts0.stop = some 0
    ∧ wOpts0.terminals = some [TermCond.num (ENum.fin 0)] := by
  have h := parse_opts_mutation_spec (V := Int) wTbl3 1 wOptsNone wOpts0 wNState
    { toks := [], eofTok := wEof, handles := [false], dynCount := 0 } 5 rfl
  exact ⟨h.1, h.2.1, h.2.2⟩
